import Mathlib

/-!
Shallow embedding of the recognition pipeline of `Project/Project.py`
(template store, preprocessor, matcher, decision policy, command sink).

Images are modelled by their shape (height, width, channel count), an
abstract content identifier `data`, and a representation tag `rep` that
records which detector produced the pixel values (raw grayscale intensity,
or a Canny edge map together with its two hysteresis thresholds).  Pixel
values themselves are not modelled: the result of
`cv2.matchTemplate`/`cv2.minMaxLoc` (the maximum normalized
cross-correlation value) is an oracle parameter `corr` of the matcher.
Real arithmetic from the Python source is carried out in `ℚ`; `int(...)`
on the non-negative quantities that occur here is `Int.floor` followed by
`Int.toNat`.
-/

namespace CrazyflieGuitar

/-- Representation of the pixel values of an image: raw grayscale
intensity, or a Canny edge map recording the two hysteresis thresholds
used to compute it. -/
inductive Rep where
  | intensity : Rep
  | edges : Nat → Nat → Rep
  deriving DecidableEq

/-- An image: shape plus a representation tag and an abstract content
identifier.  `channels = 1` models a 2-dimensional numpy array; a larger
value models a 3-dimensional (multi-channel) array. -/
structure Image where
  height : Nat
  width : Nat
  channels : Nat
  rep : Rep
  data : Nat
  deriving DecidableEq

/-- Model of `cv2.cvtColor(img, COLOR_BGR2GRAY)`: collapse to a single channel. -/
def cvtColorGray (img : Image) : Image :=
  { img with channels := 1 }

/-- Model of `cv2.equalizeHist`: contrast normalization.  It maps intensity images
to intensity images; the pixel values are not modelled. -/
def equalizeHist (img : Image) : Image :=
  img

/-- Model of `cv2.Canny(img, lo, hi)`: replace the image by its edge map, tagging
the result with the detector's two hysteresis thresholds. -/
def canny (lo hi : Nat) (img : Image) : Image :=
  { img with rep := Rep.edges lo hi }

/-- Model of `cv2.resize(img, (w, h))`: the result has width `w` and height `h`;
content and representation are carried over. -/
def resize (img : Image) (w h : Nat) : Image :=
  { img with width := w, height := h }

/-- The constant `THRESHOLD = 0.75` (Project.py line 14). -/
def THRESHOLD : ℚ := 3 / 4

/-- The constant `USE_EDGES = True` (Project.py line 15). -/
def USE_EDGES : Bool := true

/-- The table `COMMAND_MAP` (Project.py lines 18-25), as an association list in
source order. -/
def COMMAND_MAP : List (String × String) :=
  [("A", "LEFT"), ("B", "RIGHT"), ("C", "UP"),
   ("D", "DOWN"), ("E", "FRONT"), ("F", "BACK")]

/-- The table `KEY_SEND_MAP` (Project.py lines 28-35). -/
def KEY_SEND_MAP : List (String × String) :=
  [("LEFT", "left"), ("RIGHT", "right"), ("UP", "up"),
   ("DOWN", "down"), ("FRONT", "w"), ("BACK", "s")]

/-- Python's `dict.get k` on an association list. -/
def mapGet (m : List (String × String)) (k : String) : Option String :=
  (m.find? (fun p => p.1 = k)).map Prod.snd

/-- The function `preprocess` (Project.py lines 40-46), with the `USE_EDGES` global as
an explicit parameter: grayscale conversion for 3-dimensional inputs,
histogram equalization, and optionally the Canny edge map with
thresholds 50/150. -/
def preprocess (useEdges : Bool) (img : Image) : Image :=
  let gray := if img.channels ≠ 1 then cvtColorGray img else img
  let gray := equalizeHist gray
  if useEdges then canny 50 150 gray else gray

/-- Lines 67-72 of `match_symbol`: resize the template down when either
of its dimensions exceeds the frame's, by the uniform factor
`min(frameH/tmplH, frameW/tmplW)`, truncating each product to an
integer as Python's `int(...)` does. -/
def fitTemplate (frame tmpl : Image) : Image :=
  if tmpl.height > frame.height ∨ tmpl.width > frame.width then
    let scale : ℚ :=
      min ((frame.height : ℚ) / (tmpl.height : ℚ))
          ((frame.width : ℚ) / (tmpl.width : ℚ))
    let new_w : Nat := (⌊(tmpl.width : ℚ) * scale⌋).toNat
    let new_h : Nat := (⌊(tmpl.height : ℚ) * scale⌋).toNat
    resize tmpl new_w new_h
  else
    tmpl

/-- The score `match_symbol` computes for one `(name, template)` pair:
the correlation oracle applied to the frame and the fitted template
(`cv2.matchTemplate` + `cv2.minMaxLoc` maximum). -/
def templScore (corr : Image → Image → ℚ) (frame : Image)
    (p : String × Image) : ℚ :=
  corr frame (fitTemplate frame p.2)

/-- The loop of `match_symbol` (Project.py lines 65-79): running maximum
over the templates in iteration order, updating only on a strictly
greater score. -/
def matchGo (corr : Image → Image → ℚ) (frame : Image) :
    List (String × Image) → Option String × ℚ → Option String × ℚ
  | [], best => best
  | (name, tmpl) :: rest, best =>
    let maxVal := corr frame (fitTemplate frame tmpl)
    if maxVal > best.2 then
      matchGo corr frame rest (some name, maxVal)
    else
      matchGo corr frame rest best

/-- The function `match_symbol` (Project.py lines 61-83): scan all templates starting
from `(None, -1.0)`, then apply the acceptance threshold to the best
score. -/
def match_symbol (corr : Image → Image → ℚ) (frame : Image)
    (templates : List (String × Image)) : Option String × ℚ :=
  let best := matchGo corr frame templates (none, -1)
  if best.2 ≥ THRESHOLD then best else (none, best.2)

/-- One entry of `os.listdir`'s result: a file name together with the
result of `cv2.imread` on it (`none` models an undecodable/corrupt
file). -/
structure DirEntry where
  fname : String
  decoded : Option Image
  deriving DecidableEq

/-- Index of the last `'.'` in a character list, if any. -/
def lastDotIdx : List Char → Option Nat
  | [] => none
  | c :: rest =>
    match lastDotIdx rest with
    | some i => some (i + 1)
    | none => if c = '.' then some 0 else none

/-- The root part of `os.path.splitext` on a bare file name: split at the
last dot, unless every character before that dot is itself a dot (so
`".png"` keeps its name unsplit, as in CPython). -/
def splitextRoot (s : String) : String :=
  match lastDotIdx s.data with
  | none => s
  | some i =>
    if (s.data.take i).any (fun c => c ≠ '.') then
      String.mk (s.data.take i)
    else
      s

/-- The assignment `templates[name] = img` on a Python dict modelled as an association
list: overwriting an existing key keeps its original position, a new key
is appended. -/
def dictInsert (m : List (String × Image)) (k : String) (v : Image) :
    List (String × Image) :=
  if m.any (fun p => p.1 = k) then
    m.map (fun p => if p.1 = k then (k, v) else p)
  else
    m ++ [(k, v)]

/-- The per-template processing of `load_templates` (Project.py lines
56-57): the Canny edge map with thresholds 50/150 when edge mode is
enabled, the raw decoded grayscale image otherwise. -/
def tmplPrep (useEdges : Bool) (img : Image) : Image :=
  if useEdges then canny 50 150 img else img

/-- Python's string comparison, used by `sorted(os.listdir(folder))`:
lexicographic comparison of the code-point sequences. -/
def lexLe : List Char → List Char → Bool
  | [], _ => true
  | _ :: _, [] => false
  | a :: as, b :: bs =>
    if a.toNat < b.toNat then true
    else if b.toNat < a.toNat then false
    else lexLe as bs

/-- The call `sorted(os.listdir(folder))` orders directory entries by file name. -/
def dirLe (a b : DirEntry) : Prop :=
  lexLe a.fname.data b.fname.data = true

instance : DecidableRel dirLe := fun a b =>
  inferInstanceAs (Decidable (lexLe a.fname.data b.fname.data = true))

/-- The function `load_templates` (Project.py lines 48-59), with `USE_EDGES` as an
explicit parameter.  The directory listing is `none` when the directory
is unreadable (`os.listdir` raises, and `load_templates` has no handler,
so the load itself fails); otherwise the entries are sorted by file
name, undecodable files are skipped, and each decodable image is stored
under the file's base name. -/
def load_templates (useEdges : Bool) (listing : Option (List DirEntry)) :
    Option (List (String × Image)) :=
  match listing with
  | none => none
  | some entries =>
    some ((List.insertionSort dirLe entries).foldl
      (fun templates e =>
        match e.decoded with
        | none => templates
        | some img =>
          dictInsert templates (splitextRoot e.fname) (tmplPrep useEdges img))
      [])

/-- Python truthiness of the `symbol` value tested at line 225. -/
def pyTruthy : Option String → Bool
  | none => false
  | some s => s ≠ ""

/-- The user-visible outcome of one cycle: the two labels set by
`capture_and_match` and the list of keys passed to `pyautogui.press`. -/
structure CycleOutcome where
  symbolLabel : String
  commandLabel : String
  pressed : List String
  deriving DecidableEq

/-- Model of Python's fixed-point rendering of the score, the format
specifier ".2f" at line 226, under the ℚ model of floats: the score
rounded to two decimal places with ties to even (Python's rounding),
printed as sign, integer part, a dot and two digits. -/
def formatFixed2 (q : ℚ) : String :=
  let r := q * 100
  let f := ⌊r⌋
  let n : ℤ :=
    if r - f > 1/2 then f + 1
    else if r - f < 1/2 then f
    else if f % 2 = 0 then f else f + 1
  let a := n.natAbs
  (if n < 0 ∨ (n = 0 ∧ q < 0) then "-" else "") ++ toString (a / 100) ++
    "." ++ (if a % 100 < 10 then "0" else "") ++ toString (a % 100)

/-- The decision part of `MainWindow.capture_and_match` (Project.py lines
225-237), given the matcher's symbol and score and the state of the
"send keys" checkbox. -/
def capture_outcome (symbol : Option String) (score : ℚ)
    (sendKeys : Bool) : CycleOutcome :=
  if pyTruthy symbol then
    let s := symbol.getD ""
    let cmd := (mapGet COMMAND_MAP s).getD "(none)"
    { symbolLabel := "Last detected symbol: " ++ s ++ " (score=" ++
        formatFixed2 score ++ ")"
      commandLabel := "Mapped command: " ++ cmd
      pressed :=
        if sendKeys ∧ (mapGet KEY_SEND_MAP cmd).isSome then
          [(mapGet KEY_SEND_MAP cmd).getD ""]
        else
          [] }
  else
    { symbolLabel := "Last detected symbol: (no match)"
      commandLabel := "Mapped command: (none)"
      pressed := [] }

/-- One full cycle (Project.py lines 214-237, capture and preview
omitted): preprocess the captured frame, match, decide, act. -/
def capture_and_match (corr : Image → Image → ℚ) (frame : Image)
    (templates : List (String × Image)) (sendKeys : Bool) : CycleOutcome :=
  let gray := preprocess USE_EDGES frame
  let r := match_symbol corr gray templates
  capture_outcome r.1 r.2 sendKeys

/-- What one directory entry contributes to the template store: nothing
when undecodable, otherwise the pair of the file's base name and the
processed image. -/
def procEntry (useEdges : Bool) (e : DirEntry) : Option (String × Image) :=
  e.decoded.map (fun img => (splitextRoot e.fname, tmplPrep useEdges img))

/-- The base names of the decodable files of a directory listing, in
listing order. -/
def decNames (l : List DirEntry) : List String :=
  l.filterMap (fun e => e.decoded.map (fun _ => splitextRoot e.fname))

/-- Sample frame used to instantiate universally quantified results. -/
def frameS : Image := ⟨10, 10, 1, Rep.intensity, 0⟩

/-- Sample multi-channel captured frame. -/
def frameColor : Image := ⟨10, 10, 3, Rep.intensity, 0⟩

/-- Sample one-pixel frame. -/
def frame1 : Image := ⟨1, 1, 1, Rep.intensity, 0⟩

/-- Sample 4-by-4 frame. -/
def frame4 : Image := ⟨4, 4, 1, Rep.intensity, 0⟩

/-- Sample template, smaller than `frameS`. -/
def imgA : Image := ⟨2, 2, 1, Rep.intensity, 1⟩

/-- Second sample template, smaller than `frameS`. -/
def imgB : Image := ⟨3, 3, 1, Rep.intensity, 2⟩

/-- Sample template that is taller than `frame1` but not wider. -/
def tallThin : Image := ⟨2, 1, 1, Rep.intensity, 1⟩

/-- Sample template (height 8, width 6) exceeding `frame4` in both
dimensions. -/
def tmpl86 : Image := ⟨8, 6, 1, Rep.intensity, 1⟩

/-- A correlation oracle returning a constant score. -/
def corrConst (q : ℚ) : Image → Image → ℚ := fun _ _ => q

/-- A correlation oracle distinguishing templates by their content
identifier: 4/5 for content 1, 1/2 otherwise. -/
def corrByData : Image → Image → ℚ := fun _ t => if t.data = 1 then 4/5 else 1/2

/-- A correlation oracle distinguishing templates by their content
identifier: 4/5 for content 1, 9/10 otherwise. -/
def corrByData2 : Image → Image → ℚ := fun _ t => if t.data = 1 then 4/5 else 9/10

/-- Sample directory listing: five decodable files and one corrupt file
("c.png"), deliberately not given in sorted order. -/
def dirEntries6 : List DirEntry :=
  [⟨"b.png", some imgB⟩, ⟨"a.png", some imgA⟩, ⟨"c.png", none⟩,
   ⟨"d.png", some ⟨2, 2, 1, Rep.intensity, 4⟩⟩,
   ⟨"f.png", some ⟨2, 2, 1, Rep.intensity, 6⟩⟩,
   ⟨"e.png", some ⟨2, 2, 1, Rep.intensity, 5⟩⟩]

/-- Sample decodable image for the file "a.jpg". -/
def imgJ : Image := ⟨2, 2, 1, Rep.intensity, 3⟩

/-- Sample decodable image for the file "a.png". -/
def imgP : Image := ⟨2, 2, 1, Rep.intensity, 4⟩

/-- Unfolding of `templScore` on an explicit pair. -/
theorem templScore_eq (corr : Image → Image → ℚ) (frame : Image)
    (n : String) (tmpl : Image) :
    templScore corr frame (n, tmpl) = corr frame (fitTemplate frame tmpl) :=
  rfl

/-- Characterization of one step of the lexicographic comparison. -/
theorem lexLe_cons {a b : Char} {as bs : List Char} :
    lexLe (a :: as) (b :: bs) = true ↔
      a.toNat < b.toNat ∨ (a.toNat = b.toNat ∧ lexLe as bs = true) := by
  rcases Nat.lt_trichotomy a.toNat b.toNat with h | h | h
  · simp [lexLe, h]
  · simp [lexLe, h, Nat.lt_irrefl]
  · simp [lexLe, h, Nat.lt_asymm h, (Nat.ne_of_lt h).symm]

/-- The lexicographic comparison is total. -/
theorem lexLe_total : ∀ as bs : List Char,
    lexLe as bs = true ∨ lexLe bs as = true
  | [], _ => .inl rfl
  | _ :: _, [] => .inr rfl
  | a :: as, b :: bs => by
    rcases Nat.lt_trichotomy a.toNat b.toNat with h | h | h
    · exact .inl (lexLe_cons.mpr (.inl h))
    · rcases lexLe_total as bs with h' | h'
      · exact .inl (lexLe_cons.mpr (.inr ⟨h, h'⟩))
      · exact .inr (lexLe_cons.mpr (.inr ⟨h.symm, h'⟩))
    · exact .inr (lexLe_cons.mpr (.inl h))

/-- The lexicographic comparison is transitive. -/
theorem lexLe_trans : ∀ {as bs cs : List Char},
    lexLe as bs = true → lexLe bs cs = true → lexLe as cs = true
  | [], _, _, _, _ => rfl
  | _ :: _, [], _, h1, _ => by simp [lexLe] at h1
  | _ :: _, _ :: _, [], _, h2 => by simp [lexLe] at h2
  | a :: as, b :: bs, c :: cs, h1, h2 => by
    rcases lexLe_cons.mp h1 with h1' | ⟨e1, r1⟩ <;>
      rcases lexLe_cons.mp h2 with h2' | ⟨e2, r2⟩
    · exact lexLe_cons.mpr (.inl (Nat.lt_trans h1' h2'))
    · exact lexLe_cons.mpr (.inl (by omega))
    · exact lexLe_cons.mpr (.inl (by omega))
    · exact lexLe_cons.mpr (.inr ⟨e1.trans e2, lexLe_trans r1 r2⟩)

instance : IsTotal DirEntry dirLe :=
  ⟨fun a b => lexLe_total a.fname.data b.fname.data⟩

instance : IsTrans DirEntry dirLe :=
  ⟨fun _ _ _ h h' => lexLe_trans h h'⟩

/-- If no remaining template scores strictly above the running best, the
matcher loop leaves the running best unchanged. -/
theorem matchGo_no_update (corr : Image → Image → ℚ) (frame : Image) :
    ∀ (ts : List (String × Image)) (best : Option String × ℚ),
      (∀ p ∈ ts, templScore corr frame p ≤ best.2) →
      matchGo corr frame ts best = best
  | [], _, _ => rfl
  | (name, tmpl) :: rest, best, h => by
    have hle : corr frame (fitTemplate frame tmpl) ≤ best.2 :=
      h (name, tmpl) (List.mem_cons_self _ _)
    simp only [matchGo]
    rw [if_neg (not_lt.mpr hle)]
    exact matchGo_no_update corr frame rest best
      (fun p hp => h p (List.mem_cons_of_mem _ hp))

/-- If `M` bounds every remaining score, is attained by some remaining
template, and strictly exceeds the running best, the matcher loop ends at
the first template attaining `M`, with score `M`. -/
theorem matchGo_first_max (corr : Image → Image → ℚ) (frame : Image) (M : ℚ) :
    ∀ (ts : List (String × Image)) (bn : Option String) (bs : ℚ),
      (∀ p ∈ ts, templScore corr frame p ≤ M) →
      bs < M →
      (∃ p ∈ ts, templScore corr frame p = M) →
      matchGo corr frame ts (bn, bs) =
        ((ts.find? fun p => decide (templScore corr frame p = M)).map Prod.fst,
          M)
  | [], _, _, _, _, hex => absurd hex (by simp)
  | (name, tmpl) :: rest, bn, bs, hub, hbs, hex => by
    have hub' : ∀ p ∈ rest, templScore corr frame p ≤ M :=
      fun p hp => hub p (List.mem_cons_of_mem _ hp)
    simp only [matchGo]
    by_cases hs : templScore corr frame (name, tmpl) = M
    · have hsc : corr frame (fitTemplate frame tmpl) = M := hs
      rw [if_pos (show bs < corr frame (fitTemplate frame tmpl) from hsc ▸ hbs)]
      rw [show (List.find? (fun p => decide (templScore corr frame p = M))
            ((name, tmpl) :: rest)) = some (name, tmpl) from by simp [hs], hsc]
      simpa using matchGo_no_update corr frame rest (some name, M) hub'
    · have hex' : ∃ p ∈ rest, templScore corr frame p = M := by
        rcases hex with ⟨p, hp, hpM⟩
        rcases List.mem_cons.mp hp with rfl | hp'
        · exact absurd hpM hs
        · exact ⟨p, hp', hpM⟩
      rw [show (List.find? (fun p => decide (templScore corr frame p = M))
            ((name, tmpl) :: rest)) =
          List.find? (fun p => decide (templScore corr frame p = M)) rest from
        by simp [hs]]
      by_cases hgt : bs < corr frame (fitTemplate frame tmpl)
      · rw [if_pos hgt]
        exact matchGo_first_max corr frame M rest (some name) _ hub'
          (lt_of_le_of_ne (hub (name, tmpl) (List.mem_cons_self _ _)) hs) hex'
      · rw [if_neg hgt]
        exact matchGo_first_max corr frame M rest bn bs hub' hbs hex'

/-- C1: for every template and frame with positive dimensions, the score
used by match_symbol correlates the frame against fitTemplate's output;
if either template dimension exceeds the corresponding frame dimension,
that output is the template resized by the uniform factor
min(frameHeight/templateHeight, frameWidth/templateWidth), and both
resized dimensions are at most the frame's; if both template dimensions
already fit, the template is used unscaled. -/
theorem fitTemplate_rescales_to_fit (frame tmpl : Image)
    (hfh : 0 < frame.height) (hfw : 0 < frame.width)
    (hth : 0 < tmpl.height) (htw : 0 < tmpl.width) :
    (∀ (corr : Image → Image → ℚ) (n : String),
      templScore corr frame (n, tmpl) = corr frame (fitTemplate frame tmpl)) ∧
    (tmpl.height ≤ frame.height ∧ tmpl.width ≤ frame.width →
      fitTemplate frame tmpl = tmpl) ∧
    (frame.height < tmpl.height ∨ frame.width < tmpl.width →
      fitTemplate frame tmpl =
        resize tmpl
          (⌊(tmpl.width : ℚ) *
              min ((frame.height : ℚ) / (tmpl.height : ℚ))
                ((frame.width : ℚ) / (tmpl.width : ℚ))⌋).toNat
          (⌊(tmpl.height : ℚ) *
              min ((frame.height : ℚ) / (tmpl.height : ℚ))
                ((frame.width : ℚ) / (tmpl.width : ℚ))⌋).toNat ∧
      (fitTemplate frame tmpl).height ≤ frame.height ∧
      (fitTemplate frame tmpl).width ≤ frame.width) := by
  have hthQ : (0 : ℚ) < (tmpl.height : ℚ) := by exact_mod_cast hth
  have htwQ : (0 : ℚ) < (tmpl.width : ℚ) := by exact_mod_cast htw
  refine ⟨fun _ _ => rfl, ?_, ?_⟩
  · rintro ⟨h1, h2⟩
    simp only [fitTemplate]
    rw [if_neg (by omega)]
  · intro hexc
    have heq : fitTemplate frame tmpl =
        resize tmpl
          (⌊(tmpl.width : ℚ) *
              min ((frame.height : ℚ) / (tmpl.height : ℚ))
                ((frame.width : ℚ) / (tmpl.width : ℚ))⌋).toNat
          (⌊(tmpl.height : ℚ) *
              min ((frame.height : ℚ) / (tmpl.height : ℚ))
                ((frame.width : ℚ) / (tmpl.width : ℚ))⌋).toNat := by
      simp only [fitTemplate]
      rw [if_pos hexc]
    have keyH : (tmpl.height : ℚ) *
        min ((frame.height : ℚ) / (tmpl.height : ℚ))
          ((frame.width : ℚ) / (tmpl.width : ℚ)) ≤ (frame.height : ℚ) := by
      have h1 := mul_le_mul_of_nonneg_left
        (min_le_left ((frame.height : ℚ) / (tmpl.height : ℚ))
          ((frame.width : ℚ) / (tmpl.width : ℚ))) (le_of_lt hthQ)
      calc (tmpl.height : ℚ) *
          min ((frame.height : ℚ) / (tmpl.height : ℚ))
            ((frame.width : ℚ) / (tmpl.width : ℚ)) ≤
          (tmpl.height : ℚ) * ((frame.height : ℚ) / (tmpl.height : ℚ)) := h1
        _ = (frame.height : ℚ) := by
            rw [mul_comm]
            exact div_mul_cancel₀ _ (ne_of_gt hthQ)
    have keyW : (tmpl.width : ℚ) *
        min ((frame.height : ℚ) / (tmpl.height : ℚ))
          ((frame.width : ℚ) / (tmpl.width : ℚ)) ≤ (frame.width : ℚ) := by
      have h1 := mul_le_mul_of_nonneg_left
        (min_le_right ((frame.height : ℚ) / (tmpl.height : ℚ))
          ((frame.width : ℚ) / (tmpl.width : ℚ))) (le_of_lt htwQ)
      calc (tmpl.width : ℚ) *
          min ((frame.height : ℚ) / (tmpl.height : ℚ))
            ((frame.width : ℚ) / (tmpl.width : ℚ)) ≤
          (tmpl.width : ℚ) * ((frame.width : ℚ) / (tmpl.width : ℚ)) := h1
        _ = (frame.width : ℚ) := by
            rw [mul_comm]
            exact div_mul_cancel₀ _ (ne_of_gt htwQ)
    refine ⟨heq, ?_, ?_⟩
    · rw [heq]
      show (⌊(tmpl.height : ℚ) *
          min ((frame.height : ℚ) / (tmpl.height : ℚ))
            ((frame.width : ℚ) / (tmpl.width : ℚ))⌋).toNat ≤ frame.height
      exact Int.toNat_le.mpr
        ((Int.floor_mono keyH).trans_eq (Int.floor_natCast frame.height))
    · rw [heq]
      show (⌊(tmpl.width : ℚ) *
          min ((frame.height : ℚ) / (tmpl.height : ℚ))
            ((frame.width : ℚ) / (tmpl.width : ℚ))⌋).toNat ≤ frame.width
      exact Int.toNat_le.mpr
        ((Int.floor_mono keyW).trans_eq (Int.floor_natCast frame.width))

/-- Witness for C1 at the 4-by-4 frame and the 8-by-6 template: the
template exceeds the frame, and the fitted template's dimensions are
bounded by the frame's (concretely, it is resized to width 3 and
height 4). -/
theorem fitTemplate_rescales_to_fit_witness :
    (0 < frame4.height ∧ 0 < frame4.width ∧
      0 < tmpl86.height ∧ 0 < tmpl86.width ∧
      frame4.height < tmpl86.height) ∧
    (fitTemplate frame4 tmpl86).height ≤ frame4.height ∧
    (fitTemplate frame4 tmpl86).width ≤ frame4.width ∧
    fitTemplate frame4 tmpl86 = resize tmpl86 3 4 := by
  have h := fitTemplate_rescales_to_fit frame4 tmpl86
    (by decide) (by decide) (by decide) (by decide)
  have hexc : frame4.height < tmpl86.height ∨ frame4.width < tmpl86.width :=
    Or.inl (by decide)
  refine ⟨⟨by decide, by decide, by decide, by decide, by decide⟩,
    (h.2.2 hexc).2.1, (h.2.2 hexc).2.2, ?_⟩
  simp [fitTemplate, frame4, tmpl86, resize, min_def]
  norm_num
  decide

/-- C9 counterexample: the 2-by-1 template exceeds the 1-by-1 frame only
in height, all dimensions are positive, yet the fitted template's width
is 0 (Python would compute int(1 * 0.5) = 0 and cv2.resize would be
called with a zero dimension). -/
theorem fitTemplate_zero_width_counterexample :
    0 < frame1.height ∧ 0 < frame1.width ∧
    0 < tallThin.height ∧ 0 < tallThin.width ∧
    frame1.height < tallThin.height ∧
    (fitTemplate frame1 tallThin).width = 0 := by
  refine ⟨by decide, by decide, by decide, by decide, by decide, ?_⟩
  simp [fitTemplate, frame1, tallThin, resize, min_def]
  norm_num

/-- C9 amended: for positive frame and template dimensions with the
template exceeding the frame in some dimension, both resized dimensions
are at least 1 PROVIDED additionally that
templateHeight ≤ templateWidth * frameHeight and
templateWidth ≤ templateHeight * frameWidth (the original claim omits
these aspect-ratio conditions and is false without them, e.g. for a
2-by-1 template against a 1-by-1 frame). -/
theorem fitTemplate_dims_positive (frame tmpl : Image)
    (hfh : 0 < frame.height) (hfw : 0 < frame.width)
    (hth : 0 < tmpl.height) (htw : 0 < tmpl.width)
    (hexc : frame.height < tmpl.height ∨ frame.width < tmpl.width)
    (hA : tmpl.height ≤ tmpl.width * frame.height)
    (hB : tmpl.width ≤ tmpl.height * frame.width) :
    1 ≤ (fitTemplate frame tmpl).width ∧
    1 ≤ (fitTemplate frame tmpl).height := by
  have hthQ : (0 : ℚ) < (tmpl.height : ℚ) := by exact_mod_cast hth
  have htwQ : (0 : ℚ) < (tmpl.width : ℚ) := by exact_mod_cast htw
  have heq := (fitTemplate_rescales_to_fit frame tmpl hfh hfw hth htw).2.2 hexc
  have hW : (1 : ℚ) ≤ (tmpl.width : ℚ) *
      min ((frame.height : ℚ) / (tmpl.height : ℚ))
        ((frame.width : ℚ) / (tmpl.width : ℚ)) := by
    rcases le_total ((frame.height : ℚ) / (tmpl.height : ℚ))
        ((frame.width : ℚ) / (tmpl.width : ℚ)) with hm | hm
    · rw [min_eq_left hm, mul_div_assoc']
      rw [one_le_div hthQ]
      exact_mod_cast hA
    · rw [min_eq_right hm, mul_comm]
      rw [div_mul_cancel₀ _ (ne_of_gt htwQ)]
      exact_mod_cast hfw
  have hH : (1 : ℚ) ≤ (tmpl.height : ℚ) *
      min ((frame.height : ℚ) / (tmpl.height : ℚ))
        ((frame.width : ℚ) / (tmpl.width : ℚ)) := by
    rcases le_total ((frame.height : ℚ) / (tmpl.height : ℚ))
        ((frame.width : ℚ) / (tmpl.width : ℚ)) with hm | hm
    · rw [min_eq_left hm, mul_comm]
      rw [div_mul_cancel₀ _ (ne_of_gt hthQ)]
      exact_mod_cast hfh
    · rw [min_eq_right hm, mul_div_assoc']
      rw [one_le_div htwQ]
      exact_mod_cast hB
  constructor
  · rw [heq.1]
    show 1 ≤ (⌊(tmpl.width : ℚ) *
        min ((frame.height : ℚ) / (tmpl.height : ℚ))
          ((frame.width : ℚ) / (tmpl.width : ℚ))⌋).toNat
    have h1 : (1 : ℤ) ≤ ⌊(tmpl.width : ℚ) *
        min ((frame.height : ℚ) / (tmpl.height : ℚ))
          ((frame.width : ℚ) / (tmpl.width : ℚ))⌋ :=
      Int.le_floor.mpr (by exact_mod_cast hW)
    exact Int.toNat_le_toNat h1
  · rw [heq.1]
    show 1 ≤ (⌊(tmpl.height : ℚ) *
        min ((frame.height : ℚ) / (tmpl.height : ℚ))
          ((frame.width : ℚ) / (tmpl.width : ℚ))⌋).toNat
    have h1 : (1 : ℤ) ≤ ⌊(tmpl.height : ℚ) *
        min ((frame.height : ℚ) / (tmpl.height : ℚ))
          ((frame.width : ℚ) / (tmpl.width : ℚ))⌋ :=
      Int.le_floor.mpr (by exact_mod_cast hH)
    exact Int.toNat_le_toNat h1

/-- Witness for C9's amended statement at the 4-by-4 frame and the 8-by-6
template (which satisfies both aspect-ratio side conditions): the fitted
dimensions are at least 1. -/
theorem fitTemplate_dims_positive_witness :
    (frame4.height < tmpl86.height ∧
      tmpl86.height ≤ tmpl86.width * frame4.height ∧
      tmpl86.width ≤ tmpl86.height * frame4.width) ∧
    1 ≤ (fitTemplate frame4 tmpl86).width ∧
    1 ≤ (fitTemplate frame4 tmpl86).height :=
  ⟨⟨by decide, by decide, by decide⟩,
    fitTemplate_dims_positive frame4 tmpl86 (by decide) (by decide)
      (by decide) (by decide) (Or.inl (by decide)) (by decide) (by decide)⟩

/-- C2: for a non-empty template mapping whose scores have maximum M
(at least -1, as normalized cross-correlation values are), match_symbol
reports score M in all cases, reports the best template's name exactly
when M is at least the 0.75 threshold, and reports no symbol when M is
below it. -/
theorem match_symbol_threshold_decision (corr : Image → Image → ℚ)
    (frame : Image) (ts : List (String × Image)) (M : ℚ)
    (hmem : ∃ p ∈ ts, templScore corr frame p = M)
    (hub : ∀ p ∈ ts, templScore corr frame p ≤ M)
    (hM : (-1 : ℚ) ≤ M) :
    (match_symbol corr frame ts).2 = M ∧
    (THRESHOLD ≤ M →
      (match_symbol corr frame ts).1 =
        (ts.find? fun p => decide (templScore corr frame p = M)).map
          Prod.fst ∧
      ((match_symbol corr frame ts).1).isSome = true) ∧
    (M < THRESHOLD → (match_symbol corr frame ts).1 = none) := by
  rcases eq_or_lt_of_le hM with hEq | hLt
  · have hres : matchGo corr frame ts (none, -1) = (none, -1) :=
      matchGo_no_update corr frame ts (none, -1)
        (fun p hp => le_of_le_of_eq (hub p hp) hEq.symm)
    simp only [match_symbol, hres]
    rw [if_neg (show ¬(((none, -1) : Option String × ℚ).2 ≥ THRESHOLD) by
      norm_num [THRESHOLD])]
    refine ⟨hEq, ?_, fun _ => rfl⟩
    intro hth
    rw [← hEq] at hth
    exact absurd hth (by norm_num [THRESHOLD])
  · have hgo := matchGo_first_max corr frame M ts none (-1) hub hLt hmem
    simp only [match_symbol, hgo]
    by_cases hth : THRESHOLD ≤ M
    · rw [if_pos (show
        (((ts.find? fun p => decide (templScore corr frame p = M)).map
          Prod.fst, M) : Option String × ℚ).2 ≥ THRESHOLD from hth)]
      refine ⟨rfl, fun _ => ⟨rfl, ?_⟩, fun hlt => absurd hth (not_le.mpr hlt)⟩
      rcases hmem with ⟨p, hp, hpM⟩
      have hfs : (ts.find? fun q =>
          decide (templScore corr frame q = M)).isSome := by
        rw [List.find?_isSome]
        exact ⟨p, hp, decide_eq_true hpM⟩
      simpa using hfs
    · rw [if_neg (show ¬((((ts.find? fun p =>
          decide (templScore corr frame p = M)).map Prod.fst, M) :
            Option String × ℚ).2 ≥ THRESHOLD) from hth)]
      exact ⟨rfl, fun h => absurd h hth, fun _ => rfl⟩

/-- Witness for C2 on a two-template store with scores 4/5 and 1/2: the
reported score is the true maximum 4/5 and, as 4/5 clears the threshold,
a symbol is reported. -/
theorem match_symbol_threshold_decision_witness :
    templScore corrByData frameS ("A", imgA) = 4/5 ∧
    templScore corrByData frameS ("B", imgB) = 1/2 ∧
    (match_symbol corrByData frameS [("A", imgA), ("B", imgB)]).2 = 4/5 ∧
    ((match_symbol corrByData frameS [("A", imgA), ("B", imgB)]).1).isSome
      = true := by
  have s1 : templScore corrByData frameS ("A", imgA) = 4/5 := by
    simp [templScore, fitTemplate, corrByData, frameS, imgA]
  have s2 : templScore corrByData frameS ("B", imgB) = 1/2 := by
    simp [templScore, fitTemplate, corrByData, frameS, imgB]
  have hub : ∀ p ∈ [("A", imgA), ("B", imgB)],
      templScore corrByData frameS p ≤ 4/5 := by
    intro p hp
    rcases List.mem_cons.mp hp with rfl | hp'
    · exact le_of_eq s1
    · rcases List.mem_cons.mp hp' with rfl | h'
      · rw [s2]; norm_num
      · simp at h'
  have h := match_symbol_threshold_decision corrByData frameS
    [("A", imgA), ("B", imgB)] (4/5) ⟨("A", imgA), by simp, s1⟩ hub
    (by norm_num)
  exact ⟨s1, s2, h.1, (h.2.1 (by norm_num [THRESHOLD])).2⟩

/-- C4 counterexample: two templates tie at the maximal score 1/2, yet
match_symbol returns no name at all (the tied maximum is below the
threshold, so the result is None), refuting the unconditional claim that
the first-seen tied template's name is returned. -/
theorem match_symbol_tie_counterexample :
    templScore (corrConst (1/2)) frameS ("A", imgA) = 1/2 ∧
    templScore (corrConst (1/2)) frameS ("B", imgB) = 1/2 ∧
    match_symbol (corrConst (1/2)) frameS [("A", imgA), ("B", imgB)] =
      (none, 1/2) := by
  refine ⟨rfl, rfl, ?_⟩
  norm_num [match_symbol, matchGo, corrConst, THRESHOLD]

/-- C4 amended: when two or more templates attain the maximal score M
AND M is at least the 0.75 threshold, match_symbol returns the name of
the first-seen such template in iteration order (the original claim
omits the threshold condition; a sub-threshold tie returns None). -/
theorem match_symbol_tie_first_seen (corr : Image → Image → ℚ)
    (frame : Image) (ts : List (String × Image)) (M : ℚ)
    (hub : ∀ p ∈ ts, templScore corr frame p ≤ M)
    (hth : THRESHOLD ≤ M)
    (i j : Fin ts.length) (hij : i ≠ j)
    (hi : templScore corr frame (ts.get i) = M)
    (hj : templScore corr frame (ts.get j) = M) :
    (match_symbol corr frame ts).1 =
      (ts.find? fun p => decide (templScore corr frame p = M)).map
        Prod.fst := by
  have hmem : ∃ p ∈ ts, templScore corr frame p = M :=
    ⟨ts.get i, List.get_mem ts i.1 i.2, hi⟩
  have hM1 : (-1 : ℚ) < M := lt_of_lt_of_le (by norm_num [THRESHOLD]) hth
  have hgo := matchGo_first_max corr frame M ts none (-1) hub hM1 hmem
  simp only [match_symbol, hgo]
  rw [if_pos (show
    (((ts.find? fun p => decide (templScore corr frame p = M)).map
      Prod.fst, M) : Option String × ℚ).2 ≥ THRESHOLD from hth)]

/-- Witness for C4's amended statement: two templates tie at 4/5 (at or
above the threshold) and the first-seen name "A" is returned. -/
theorem match_symbol_tie_first_seen_witness :
    THRESHOLD ≤ 4/5 ∧
    templScore (corrConst (4/5)) frameS ("A", imgA) = 4/5 ∧
    templScore (corrConst (4/5)) frameS ("B", imgB) = 4/5 ∧
    (match_symbol (corrConst (4/5)) frameS [("A", imgA), ("B", imgB)]).1 =
      some "A" := by
  have hub : ∀ p ∈ [("A", imgA), ("B", imgB)],
      templScore (corrConst (4/5)) frameS p ≤ 4/5 := fun p _ => le_of_eq rfl
  have h := match_symbol_tie_first_seen (corrConst (4/5)) frameS
    [("A", imgA), ("B", imgB)] (4/5) hub (by norm_num [THRESHOLD])
    ⟨0, by norm_num⟩ ⟨1, by norm_num⟩ (by decide) rfl rfl
  refine ⟨by norm_num [THRESHOLD], rfl, rfl, ?_⟩
  rw [h]
  simp [templScore, corrConst]

/-- C5: for two templates with distinct scores both at or above the
threshold, match_symbol selects the strictly higher-scoring template's
name and reports the maximum score, in either iteration order. -/
theorem match_symbol_picks_strictly_higher (corr : Image → Image → ℚ)
    (frame : Image) (n1 n2 : String) (u1 u2 : Image) (s1 s2 : ℚ)
    (h1 : templScore corr frame (n1, u1) = s1)
    (h2 : templScore corr frame (n2, u2) = s2)
    (hne : s1 ≠ s2) (ht1 : THRESHOLD ≤ s1) (ht2 : THRESHOLD ≤ s2) :
    match_symbol corr frame [(n1, u1), (n2, u2)] =
      (some (if s1 < s2 then n2 else n1), max s1 s2) ∧
    match_symbol corr frame [(n2, u2), (n1, u1)] =
      (some (if s1 < s2 then n2 else n1), max s1 s2) := by
  have e1 : corr frame (fitTemplate frame u1) = s1 := h1
  have e2 : corr frame (fitTemplate frame u2) = s2 := h2
  have hm1 : (-1 : ℚ) < s1 := lt_of_lt_of_le (by norm_num [THRESHOLD]) ht1
  have hm2 : (-1 : ℚ) < s2 := lt_of_lt_of_le (by norm_num [THRESHOLD]) ht2
  rcases lt_or_gt_of_ne hne with h | h
  · have g1 : matchGo corr frame [(n1, u1), (n2, u2)] (none, -1) =
        (some n2, s2) := by
      simp only [matchGo, e1, e2]
      rw [if_pos hm1, if_pos h]
    have g2 : matchGo corr frame [(n2, u2), (n1, u1)] (none, -1) =
        (some n2, s2) := by
      simp only [matchGo, e1, e2]
      rw [if_pos hm2, if_neg (not_lt.mpr (le_of_lt h))]
    constructor
    · simp only [match_symbol, g1]
      rw [if_pos (show ((some n2, s2) : Option String × ℚ).2 ≥ THRESHOLD
        from ht2)]
      rw [if_pos h, max_eq_right (le_of_lt h)]
    · simp only [match_symbol, g2]
      rw [if_pos (show ((some n2, s2) : Option String × ℚ).2 ≥ THRESHOLD
        from ht2)]
      rw [if_pos h, max_eq_right (le_of_lt h)]
  · have g1 : matchGo corr frame [(n1, u1), (n2, u2)] (none, -1) =
        (some n1, s1) := by
      simp only [matchGo, e1, e2]
      rw [if_pos hm1, if_neg (not_lt.mpr (le_of_lt h))]
    have g2 : matchGo corr frame [(n2, u2), (n1, u1)] (none, -1) =
        (some n1, s1) := by
      simp only [matchGo, e1, e2]
      rw [if_pos hm2, if_pos h]
    constructor
    · simp only [match_symbol, g1]
      rw [if_pos (show ((some n1, s1) : Option String × ℚ).2 ≥ THRESHOLD
        from ht1)]
      rw [if_neg (not_lt.mpr (le_of_lt h)), max_eq_left (le_of_lt h)]
    · simp only [match_symbol, g2]
      rw [if_pos (show ((some n1, s1) : Option String × ℚ).2 ≥ THRESHOLD
        from ht1)]
      rw [if_neg (not_lt.mpr (le_of_lt h)), max_eq_left (le_of_lt h)]

/-- Witness for C5 with scores 4/5 and 9/10: the 9/10 template "B" wins
in both iteration orders. -/
theorem match_symbol_picks_strictly_higher_witness :
    templScore corrByData2 frameS ("A", imgA) = 4/5 ∧
    templScore corrByData2 frameS ("B", imgB) = 9/10 ∧
    match_symbol corrByData2 frameS [("A", imgA), ("B", imgB)] =
      (some "B", 9/10) ∧
    match_symbol corrByData2 frameS [("B", imgB), ("A", imgA)] =
      (some "B", 9/10) := by
  have s1 : templScore corrByData2 frameS ("A", imgA) = 4/5 := by
    simp [templScore, fitTemplate, corrByData2, frameS, imgA]
  have s2 : templScore corrByData2 frameS ("B", imgB) = 9/10 := by
    simp [templScore, fitTemplate, corrByData2, frameS, imgB]
  have h := match_symbol_picks_strictly_higher corrByData2 frameS "A" "B"
    imgA imgB (4/5) (9/10) s1 s2 (by norm_num) (by norm_num [THRESHOLD])
    (by norm_num [THRESHOLD])
  refine ⟨s1, s2, ?_, ?_⟩
  · rw [h.1, if_pos (show (4 : ℚ)/5 < 9/10 by norm_num),
      max_eq_right (show (4 : ℚ)/5 ≤ 9/10 by norm_num)]
  · rw [h.2, if_pos (show (4 : ℚ)/5 < 9/10 by norm_num),
      max_eq_right (show (4 : ℚ)/5 ≤ 9/10 by norm_num)]

/-- C10: on an empty template mapping match_symbol returns (None, -1.0)
without error, and this is indistinguishable from a one-template store
whose template scored exactly -1.0. -/
theorem match_symbol_empty_store :
    (∀ (corr : Image → Image → ℚ) (frame : Image),
      match_symbol corr frame [] = (none, -1)) ∧
    match_symbol (corrConst (-1)) frameS [("A", imgA)] = (none, -1) := by
  constructor
  · intro corr frame
    norm_num [match_symbol, matchGo, THRESHOLD]
  · norm_num [match_symbol, matchGo, corrConst, THRESHOLD]

/-- Any element of a dict after insertion was either already present or
is the inserted pair. -/
theorem mem_dictInsert {m : List (String × Image)} {k : String} {v : Image}
    {p : String × Image} (hp : p ∈ dictInsert m k v) :
    p ∈ m ∨ p = (k, v) := by
  unfold dictInsert at hp
  split at hp
  · rcases List.mem_map.mp hp with ⟨q, hq, hqe⟩
    by_cases hk : q.1 = k
    · rw [if_pos hk] at hqe
      exact Or.inr hqe.symm
    · rw [if_neg hk] at hqe
      exact Or.inl (hqe ▸ hq)
  · rcases List.mem_append.mp hp with h' | h'
    · exact Or.inl h'
    · exact Or.inr (List.mem_singleton.mp h')

/-- Invariant of the template-loading fold: a property of the processed
images holds of every stored entry. -/
theorem loadFold_invariant (u : Bool) (P : Image → Prop) :
    ∀ (l : List DirEntry) (acc : List (String × Image)),
      (∀ e ∈ l, ∀ img, e.decoded = some img → P (tmplPrep u img)) →
      (∀ p ∈ acc, P p.2) →
      ∀ p ∈ l.foldl
        (fun templates e =>
          match e.decoded with
          | none => templates
          | some img =>
            dictInsert templates (splitextRoot e.fname) (tmplPrep u img))
        acc, P p.2
  | [], _, _, hacc, p, hp => hacc p hp
  | e :: l, acc, hl, hacc, p, hp => by
    rw [List.foldl_cons] at hp
    have hl' : ∀ e' ∈ l, ∀ img, e'.decoded = some img → P (tmplPrep u img) :=
      fun e' he' => hl e' (List.mem_cons_of_mem _ he')
    cases hd : e.decoded with
    | none =>
      rw [hd] at hp
      exact loadFold_invariant u P l acc hl' hacc p hp
    | some img =>
      rw [hd] at hp
      refine loadFold_invariant u P l _ hl' ?_ p hp
      intro q hq
      rcases mem_dictInsert hq with h' | h'
      · exact hacc q h'
      · rw [h']
        exact hl e (List.mem_cons_self _ _) img hd

/-- C3: for every edge-mode setting, a preprocessed frame and a
template-store image have the same representation: with edge mode
enabled both are Canny edge maps with thresholds 50/150, with edge mode
disabled both are raw grayscale intensity; and every image stored by
load_templates from intensity inputs carries exactly the preprocessed
frame's representation. -/
theorem edge_mode_same_representation (u : Bool) (f t : Image)
    (hf : f.rep = Rep.intensity) (ht : t.rep = Rep.intensity) :
    (preprocess u f).rep = (tmplPrep u t).rep ∧
    (u = true → (preprocess u f).rep = Rep.edges 50 150 ∧
      (tmplPrep u t).rep = Rep.edges 50 150) ∧
    (u = false → (preprocess u f).rep = Rep.intensity ∧
      (tmplPrep u t).rep = Rep.intensity) ∧
    (∀ (entries : List DirEntry) (stored : List (String × Image)),
      (∀ e ∈ entries, ∀ img, e.decoded = some img →
        img.rep = Rep.intensity) →
      load_templates u (some entries) = some stored →
      ∀ p ∈ stored, p.2.rep = (preprocess u f).rep) := by
  have hpre : (preprocess u f).rep =
      if u then Rep.edges 50 150 else Rep.intensity := by
    cases u <;>
      simp [preprocess, apply_ite, cvtColorGray, equalizeHist, canny, hf]
  have htp : ∀ (img : Image), img.rep = Rep.intensity →
      (tmplPrep u img).rep = if u then Rep.edges 50 150 else Rep.intensity :=
    fun img himg => by cases u <;> simp [tmplPrep, canny, himg]
  refine ⟨by rw [hpre, htp t ht], ?_, ?_, ?_⟩
  · rintro rfl
    exact ⟨by simpa using hpre, by simpa using htp t ht⟩
  · rintro rfl
    exact ⟨by simpa using hpre, by simpa using htp t ht⟩
  · intro entries stored hdec hload p hp
    have hstored : (List.insertionSort dirLe entries).foldl
        (fun templates e =>
          match e.decoded with
          | none => templates
          | some img =>
            dictInsert templates (splitextRoot e.fname) (tmplPrep u img))
        [] = stored := Option.some.inj hload
    rw [← hstored] at hp
    refine loadFold_invariant u (fun i => i.rep = (preprocess u f).rep)
      (List.insertionSort dirLe entries) [] ?_ (by simp) p hp
    intro e he img himg
    have hmem : e ∈ entries :=
      (List.perm_insertionSort dirLe entries).mem_iff.mp he
    rw [htp img (hdec e hmem img himg), hpre]

/-- Witness for C3 with edge mode enabled, a color frame, and an
intensity template image: both representations are the 50/150 edge
map. -/
theorem edge_mode_same_representation_witness :
    frameColor.rep = Rep.intensity ∧ imgA.rep = Rep.intensity ∧
    (preprocess true frameColor).rep = (tmplPrep true imgA).rep ∧
    (preprocess true frameColor).rep = Rep.edges 50 150 := by
  have h := edge_mode_same_representation true frameColor imgA rfl rfl
  exact ⟨rfl, rfl, h.1, (h.2.1 rfl).1⟩

/-- Inserting a key not yet present appends the pair at the end. -/
theorem dictInsert_fresh {m : List (String × Image)} {k : String} {v : Image}
    (h : k ∉ m.map Prod.fst) : dictInsert m k v = m ++ [(k, v)] := by
  have hc : ¬(m.any (fun p => decide (p.1 = k)) = true) := by
    intro hc
    rcases List.any_eq_true.mp hc with ⟨p, hp, hpk⟩
    exact h (List.mem_map.mpr ⟨p, hp, of_decide_eq_true hpk⟩)
  unfold dictInsert
  rw [if_neg hc]

/-- The template-loading fold, on a listing whose decodable base names
are pairwise distinct and fresh for the accumulator, appends one entry
per decodable file in listing order. -/
theorem loadFold_append (u : Bool) (l : List DirEntry) :
    ∀ (acc : List (String × Image)),
      (decNames l).Pairwise (fun a b => a ≠ b) →
      (∀ n ∈ decNames l, n ∉ acc.map Prod.fst) →
      l.foldl
        (fun templates e =>
          match e.decoded with
          | none => templates
          | some img =>
            dictInsert templates (splitextRoot e.fname) (tmplPrep u img))
        acc = acc ++ l.filterMap (procEntry u) := by
  induction l with
  | nil =>
    intro acc _ _
    simp
  | cons e l ih =>
    intro acc hpw hacc
    rw [List.foldl_cons]
    cases hd : e.decoded with
    | none =>
      have hnames : decNames (e :: l) = decNames l := by
        simp [decNames, List.filterMap_cons, hd]
      simp only [hd]
      rw [ih acc (hnames ▸ hpw) (hnames ▸ hacc)]
      simp [List.filterMap_cons, procEntry, hd]
    | some img =>
      have hnames : decNames (e :: l) =
          splitextRoot e.fname :: decNames l := by
        simp [decNames, List.filterMap_cons, hd]
      have hpw' := hnames ▸ hpw
      have hhead : ∀ n ∈ decNames l, splitextRoot e.fname ≠ n :=
        (List.pairwise_cons.mp hpw').1
      have hacc0 : splitextRoot e.fname ∉ acc.map Prod.fst :=
        (hnames ▸ hacc) _ (List.mem_cons_self _ _)
      have hacc' : ∀ n ∈ decNames l,
          n ∉ (acc ++ [(splitextRoot e.fname, tmplPrep u img)]).map
            Prod.fst := by
        intro n hn hc
        rw [List.map_append] at hc
        rcases List.mem_append.mp hc with h' | h'
        · exact (hnames ▸ hacc) n (List.mem_cons_of_mem _ hn) h'
        · have hne : n = splitextRoot e.fname := by simpa using h'
          exact hhead n hn hne.symm
      simp only [hd]
      rw [dictInsert_fresh hacc0]
      rw [ih _ (List.pairwise_cons.mp hpw').2 hacc']
      simp [List.filterMap_cons, procEntry, hd]

/-- C6 amended: on a readable directory whose decodable files have
pairwise distinct base names, load_templates skips each undecodable file
non-fatally and stores one entry per decodable file, keyed by the base
name with extension stripped, iterating the files in lexicographic
filename order; the number of entries is the number of decodable files;
an unreadable directory makes the load itself fail.  (The original claim
holds only up to the distinct-base-name condition: two decodable files
sharing a base name collapse into one entry.) -/
theorem load_templates_spec (u : Bool) (entries : List DirEntry)
    (hdist : (decNames entries).Pairwise (fun a b => a ≠ b)) :
    load_templates u none = none ∧
    load_templates u (some entries) =
      some ((List.insertionSort dirLe entries).filterMap (procEntry u)) ∧
    ((List.insertionSort dirLe entries).filterMap (procEntry u)).length =
      entries.countP (fun e => e.decoded.isSome) ∧
    (List.insertionSort dirLe entries).Sorted dirLe := by
  have hperm := List.perm_insertionSort dirLe entries
  have hnp : List.Perm (decNames (List.insertionSort dirLe entries))
      (decNames entries) := hperm.filterMap _
  have hpw : (decNames (List.insertionSort dirLe entries)).Pairwise
      (fun a b => a ≠ b) :=
    (hnp.pairwise_iff (fun h => Ne.symm h)).mpr hdist
  refine ⟨rfl, ?_, ?_, List.sorted_insertionSort dirLe entries⟩
  · simp only [load_templates]
    rw [loadFold_append u (List.insertionSort dirLe entries) [] hpw
      (by simp)]
    simp
  · rw [List.length_filterMap_eq_countP]
    have hstep : (List.insertionSort dirLe entries).countP
        (fun e => (procEntry u e).isSome) =
        (List.insertionSort dirLe entries).countP
          (fun e => e.decoded.isSome) := by
      apply List.countP_congr
      intro e _
      simp [procEntry]
    rw [hstep]
    exact hperm.countP_eq (fun e => e.decoded.isSome)

/-- C6 counterexample: a directory with the two decodable files "a.jpg"
and "a.png" (same base name) yields one stored entry, not one entry per
decodable file; the later file's image overwrites the earlier one. -/
theorem load_templates_duplicate_basename_counterexample :
    (([⟨"a.jpg", some imgJ⟩, ⟨"a.png", some imgP⟩] : List DirEntry).countP
      (fun e => e.decoded.isSome)) = 2 ∧
    load_templates true
      (some [⟨"a.jpg", some imgJ⟩, ⟨"a.png", some imgP⟩]) =
      some [("a", canny 50 150 imgP)] := by
  constructor
  · decide
  · decide

/-- Witness for C6's amended statement on a six-file listing with one
corrupt file: exactly five entries are stored, in lexicographic filename
order, and the load of an unreadable directory fails. -/
theorem load_templates_spec_witness :
    (decNames dirEntries6).Pairwise (fun a b => a ≠ b) ∧
    load_templates true none = none ∧
    load_templates true (some dirEntries6) =
      some ((List.insertionSort dirLe dirEntries6).filterMap
        (procEntry true)) ∧
    ((List.insertionSort dirLe dirEntries6).filterMap
      (procEntry true)).length = 5 ∧
    ((List.insertionSort dirLe dirEntries6).filterMap
      (procEntry true)).map Prod.fst = ["a", "b", "d", "e", "f"] := by
  have hdist : (decNames dirEntries6).Pairwise (fun a b => a ≠ b) := by
    decide
  have h := load_templates_spec true dirEntries6 hdist
  refine ⟨hdist, h.1, h.2.1, ?_, by decide⟩
  rw [h.2.2.1]
  decide

/-- C7: whenever the matcher recognizes symbol "A" (which entails a
score at or above the threshold) and key injection is enabled, the
symbol resolves to command "LEFT", the command resolves to key "left",
and exactly one key injection with "left" happens in that cycle. -/
theorem recognize_A_sends_left (corr : Image → Image → ℚ) (frame : Image)
    (ts : List (String × Image)) (s : ℚ)
    (h : match_symbol corr (preprocess USE_EDGES frame) ts = (some "A", s)) :
    THRESHOLD ≤ s ∧
    (mapGet COMMAND_MAP "A").getD "(none)" = "LEFT" ∧
    mapGet KEY_SEND_MAP "LEFT" = some "left" ∧
    (capture_and_match corr frame ts true).pressed = ["left"] := by
  have hth : THRESHOLD ≤ s := by
    have h' := h
    simp only [match_symbol] at h'
    split at h'
    · rename_i hc
      rw [h'] at hc
      exact hc
    · simp at h'
  refine ⟨hth, rfl, rfl, ?_⟩
  simp [capture_and_match, h, capture_outcome, pyTruthy, mapGet,
    COMMAND_MAP, KEY_SEND_MAP]

/-- Witness for C7: a one-template store whose template "A" scores 9/10
against the preprocessed color frame; the cycle presses exactly the key
"left". -/
theorem recognize_A_sends_left_witness :
    match_symbol (corrConst (9/10)) (preprocess USE_EDGES frameColor)
      [("A", imgA)] = (some "A", 9/10) ∧
    (capture_and_match (corrConst (9/10)) frameColor [("A", imgA)]
      true).pressed = ["left"] := by
  have hm : match_symbol (corrConst (9/10))
      (preprocess USE_EDGES frameColor) [("A", imgA)] = (some "A", 9/10) := by
    norm_num [match_symbol, matchGo, corrConst, THRESHOLD]
  exact ⟨hm, (recognize_A_sends_left (corrConst (9/10)) frameColor
    [("A", imgA)] (9/10) hm).2.2.2⟩

/-- C8: every recognized (truthy) symbol with no entry in the command
table resolves to the sentinel "(none)" without error, injects no key,
and its cycle outcome is distinct from the no-symbol-recognized outcome,
whatever scores accompany either cycle and whatever the key-injection
setting. -/
theorem unmapped_symbol_resolves_to_sentinel (s : String)
    (score score' : ℚ) (sendKeys : Bool) (hs : s ≠ "")
    (hnone : mapGet COMMAND_MAP s = none) :
    (mapGet COMMAND_MAP s).getD "(none)" = "(none)" ∧
    (capture_outcome (some s) score sendKeys).commandLabel =
      "Mapped command: (none)" ∧
    (capture_outcome (some s) score sendKeys).pressed = [] ∧
    capture_outcome (some s) score sendKeys ≠
      capture_outcome none score' sendKeys := by
  have hL1 : (capture_outcome (some s) score sendKeys).symbolLabel =
      "Last detected symbol: " ++ s ++ " (score=" ++ formatFixed2 score ++
        ")" := by
    simp [capture_outcome, pyTruthy, hs]
  have hL2 : (capture_outcome none score' sendKeys).symbolLabel =
      "Last detected symbol: (no match)" := by
    simp [capture_outcome, pyTruthy]
  have hcmd : (mapGet COMMAND_MAP s).getD "(none)" = "(none)" := by
    rw [hnone]
    rfl
  have hk : mapGet KEY_SEND_MAP "(none)" = none := by decide
  refine ⟨hcmd, ?_, ?_, ?_⟩
  · simp [capture_outcome, pyTruthy, hs, hcmd]
  · simp [capture_outcome, pyTruthy, hs, hcmd, hk]
  · intro heq
    have hlab := congrArg CycleOutcome.symbolLabel heq
    rw [hL1, hL2] at hlab
    have h1 : '=' ∈ ("Last detected symbol: " ++ s ++ " (score=" ++
        formatFixed2 score ++ ")").data := by
      have hc : '=' ∈ " (score=".data := by decide
      simp only [String.data_append, List.mem_append]
      tauto
    rw [hlab] at h1
    exact absurd h1 (by decide)

/-- Witness for C8 at the unmapped symbol "G" (with sample scores and
key injection enabled): the sentinel command, no injected key, and an
outcome distinct from the no-match outcome. -/
theorem unmapped_symbol_resolves_to_sentinel_witness :
    ("G" ≠ "" ∧ mapGet COMMAND_MAP "G" = none) ∧
    (capture_outcome (some "G") (9/10) true).commandLabel =
      "Mapped command: (none)" ∧
    (capture_outcome (some "G") (9/10) true).pressed = [] ∧
    capture_outcome (some "G") (9/10) true ≠
      capture_outcome none (-1) true := by
  have h := unmapped_symbol_resolves_to_sentinel "G" (9/10) (-1) true
    (by decide) (by decide)
  exact ⟨⟨by decide, by decide⟩, h.2.1, h.2.2.1, h.2.2.2⟩

end CrazyflieGuitar
